import Mathlib

/-!
# Verification of the Excel consolidator cleaning pipeline

A shallow embedding of the two cleaning/consolidation routines of the
repository (`consolidate_any.py`, batch mode, and `streamlit_app.py`,
interactive mode), together with theorems settling the frozen claims about
the natural-language specification.

Cells are modelled by the inductive type `Value` (a true null — covering
`None`/`NaN`/`NaT`/`pd.NA` —, a string, an integer number, and a calendar
date).  Frames are column-name lists plus row-major cell lists.  Pandas
string/number parsing (`pd.to_numeric`, `pd.to_datetime`) is external
library behaviour; it is modelled by executable parsers restricted to
integer literals and ISO `YYYY-MM-DD` dates, which is faithful on every
input the claims exercise.
-/

set_option autoImplicit false

/-- Model of Python `str.strip` on a character list: drop leading and
trailing whitespace. -/
def stripChars (l : List Char) : List Char :=
  ((l.dropWhile Char.isWhitespace).reverse.dropWhile Char.isWhitespace).reverse

/-- Model of Python `str.strip`. -/
def pyStrip (s : String) : String := ⟨stripChars s.data⟩

/-- Model of Python `str.upper` per character (ASCII plus the é used by the
source's keyword lists). -/
def pyUpperChar (c : Char) : Char := if c = 'é' then 'É' else c.toUpper

/-- Model of Python `str.upper`. -/
def pyUpper (s : String) : String := ⟨s.data.map pyUpperChar⟩

/-- Model of Python `str.lower` per character (ASCII plus É). -/
def pyLowerChar (c : Char) : Char := if c = 'É' then 'é' else c.toLower

/-- Model of Python `str.lower`. -/
def pyLower (s : String) : String := ⟨s.data.map pyLowerChar⟩

/-- Model of Python `os.path.basename`: the part of the path after the last
slash. -/
def pyBasename (s : String) : String :=
  ⟨(s.data.reverse.takeWhile (fun c => !(c = '/' : Bool))).reverse⟩

/-- Decimal digits of a natural number, most significant first. -/
def natDigits (n : Nat) : List Char :=
  if n < 10 then [Nat.digitChar n]
  else natDigits (n / 10) ++ [Nat.digitChar (n % 10)]
decreasing_by
  rename_i h
  exact Nat.div_lt_self (by omega) (by omega)

/-- Decimal rendering of a natural number. -/
def renderNat (n : Nat) : String := ⟨natDigits n⟩

/-- Decimal rendering of an integer (model of Python `str` on numbers; the
source only ever needs that the result is a digit string, possibly
sign-prefixed). -/
def renderInt (n : Int) : String :=
  match n with
  | .ofNat m => renderNat m
  | .negSucc m => ⟨'-' :: natDigits (m + 1)⟩

/-- Left-pad a digit list with zeros to width `k`. -/
def padZero (k : Nat) (l : List Char) : List Char :=
  List.replicate (k - l.length) '0' ++ l

/-- `YYYY-MM-DD` rendering of a calendar date (model of
`strftime('%Y-%m-%d')`). -/
def renderDate (y m d : Nat) : String :=
  ⟨padZero 4 (natDigits y) ++ '-' :: (padZero 2 (natDigits m) ++ '-' :: padZero 2 (natDigits d))⟩

/-- Parse a digit list as a natural number; `none` unless nonempty and all
digits. -/
def parseNatChars (l : List Char) : Option Nat :=
  if l ≠ [] ∧ l.all Char.isDigit then
    some (l.foldl (fun a c => a * 10 + (c.toNat - 48)) 0)
  else none

/-- Model of `pd.to_numeric` string parsing, restricted to integer
literals: an optional minus sign followed by digits.  Any other string
fails to parse. -/
def parseNumeric (s : String) : Option Int :=
  match s.data with
  | '-' :: rest => (parseNatChars rest).map (fun n => -(n : Int))
  | l => (parseNatChars l).map (fun n => (n : Int))

/-- Model of `pd.to_datetime` string parsing, restricted to ISO
`YYYY-MM-DD` literals with a plausible month and day.  Any other string
fails to parse. -/
def parseDate (s : String) : Option (Nat × Nat × Nat) :=
  match s.data with
  | [a, b, c, d, '-', e, f, '-', g, h] =>
    if [a, b, c, d, e, f, g, h].all Char.isDigit then
      let y := ((a.toNat - 48) * 10 + (b.toNat - 48)) * 100 + ((c.toNat - 48) * 10 + (d.toNat - 48))
      let mo := (e.toNat - 48) * 10 + (f.toNat - 48)
      let da := (g.toNat - 48) * 10 + (h.toNat - 48)
      if 1 ≤ mo ∧ mo ≤ 12 ∧ 1 ≤ da ∧ da ≤ 31 then some (y, mo, da) else none
    else none
  | _ => none

/-- A raw or normalized cell value.  `null` is the canonical missing
marker, standing for all of `None`, `NaN`, `NaT`, and `pd.NA`. -/
inductive Value where
  | null : Value
  | str (s : String) : Value
  | num (n : Int) : Value
  | date (y m d : Nat) : Value
deriving DecidableEq, Repr

/-- The user-facing column types of the interactive mode. -/
inductive ColType where
  | text : ColType
  | numeric : ColType
  | date : ColType
deriving DecidableEq, Repr

/-- Pandas column dtypes, as far as the batch mode's
`select_dtypes(['object'])` / `select_dtypes(['number'])` distinction
needs them. -/
inductive DType where
  | obj : DType
  | number : DType
  | datetime : DType
deriving DecidableEq, Repr

/-- A data frame: ordered column names plus row-major cells. -/
structure Frame where
  cols : List String
  rows : List (List Value)
deriving DecidableEq, Repr

/-- `pd.isna`. -/
def isNa : Value → Bool
  | .null => true
  | _ => false

/-- Model of Python `str()` applied to a cell, as `astype(str)` does:
`str(pd.NA)` is the literal `"<NA>"`. -/
def pyStr : Value → String
  | .null => "<NA>"
  | .str s => s
  | .num n => renderInt n
  | .date y m d => renderDate y m d

/-- The missing-detection lambda shared verbatim by
`streamlit_app.clean_and_prepare_df` (lines 26–31) and
`consolidate_any.process_file` (lines 23–28): a cell is replaced by `pd.NA`
iff it is already missing, or a string whose stripped form is empty or
whose stripped upper-cased form is `"N/A"`. -/
def naSentinel : Value → Bool
  | .null => true
  | .str s => decide (pyStrip s = "" ∨ pyUpper (pyStrip s) = "N/A")
  | _ => false

/-- The `applymap` body of the shared missing-detection pass. -/
def naReplace (v : Value) : Value := if naSentinel v then .null else v

/-- `pd.to_numeric(·, errors='coerce')` per cell: numbers pass through,
strings parse or coerce to missing, timestamps are not float-convertible
and coerce to missing. -/
def toNumericCell : Value → Value
  | .null => .null
  | .num n => .num n
  | .str s =>
    match parseNumeric s with
    | some n => .num n
    | none => .null
  | .date _ _ _ => .null

/-- `pd.to_datetime(·, errors='coerce')` per cell: dates pass through,
strings parse or coerce to missing; numeric epoch interpretation is
modelled as unparseable (no claim exercises it). -/
def toDatetimeCell : Value → Value
  | .null => .null
  | .date y m d => .date y m d
  | .str s =>
    match parseDate s with
    | some (y, m, d) => .date y m d
    | none => .null
  | .num _ => .null

/-- The interactive mode's Text conversion (line 52):
`astype(str).replace({'nan': pd.NA, '<NA>': pd.NA, '': pd.NA})`. -/
def toTextCell (v : Value) : Value :=
  let s := pyStr v
  if s = "nan" ∨ s = "<NA>" ∨ s = "" then .null else .str s

/-- The interactive mode's defensive conversion for a column missing from
the type map (line 41): `astype(str).replace({'nan': pd.NA, '<NA>': pd.NA})`. -/
def notInMapCell (v : Value) : Value :=
  let s := pyStr v
  if s = "nan" ∨ s = "<NA>" then .null else .str s

/-- Dispatch of the interactive mode's per-column conversion (lines 35–52)
on the looked-up column type. -/
def convertCell (o : Option ColType) (v : Value) : Value :=
  match o with
  | none => notInMapCell v
  | some .date => toDatetimeCell v
  | some .numeric => toNumericCell v
  | some .text => toTextCell v

/-- The Cell Normalizer of the specification (§4.1): the shared
missing-detection pass followed by the configured type coercion.  Missing
detection is applied before any coercion, by construction. -/
def normalizeCell (t : ColType) (v : Value) : Value :=
  convertCell (some t) (naReplace v)

/-- The interactive mode's final Date formatting (lines 80–87): datetimes
are rendered `YYYY-MM-DD` (`NaT` becomes missing), and leftover literal
`'<NA>'`/`'NaT'`/`''` strings are replaced by missing. -/
def formatDateCell : Value → Value
  | .date y m d => .str (renderDate y m d)
  | .str s => if s = "<NA>" ∨ s = "NaT" ∨ s = "" then .null else .str s
  | v => v

/-- Greatest index whose element satisfies `p` (the model of
`(~mask).to_numpy().nonzero()[0][-1]`). -/
def lastIdxWhere {α : Type} (p : α → Bool) : List α → Option Nat
  | [] => none
  | a :: as =>
    match lastIdxWhere p as with
    | some i => some (i + 1)
    | none => if p a then some 0 else none

/-- Drop the maximal fully-`b` suffix of a list. -/
def dropTrail {α : Type} (b : α → Bool) (l : List α) : List α :=
  (l.reverse.dropWhile b).reverse

/-- A row every cell of which is missing (`df.isna().all(axis=1)`). -/
def rowAllNa (r : List Value) : Bool := r.all isNa

/-- The interactive mode's trailing-blank trimmer
(`clean_and_prepare_df`, lines 57–69): skipped when the frame is empty
(`df.empty` — zero rows or zero columns); an all-blank frame becomes zero
rows (`iloc[0:0]`); otherwise the frame is cut after the last non-blank
row.  The final `match` arm with `none` mirrors the source's unreachable
`len(non_empty_idx) == 0` case. -/
def streamlitTrim (fr : Frame) : Frame :=
  if fr.rows.isEmpty ∨ fr.cols.isEmpty then fr
  else if fr.rows.all rowAllNa then ⟨fr.cols, []⟩
  else
    match lastIdxWhere (fun r => !rowAllNa r) fr.rows with
    | some i => ⟨fr.cols, fr.rows.take (i + 1)⟩
    | none => fr

/-- The batch mode's per-cell blankness (lines 33–45): in a number-dtype
column a cell is blank when missing or zero; in an object column when
missing; columns of any other dtype are in neither mask and contribute
nothing to the conjunction. -/
def batchBlankCell (d : DType) (v : Value) : Bool :=
  match d with
  | .number => isNa v || (match v with | .num n => decide (n = 0) | _ => false)
  | .obj => isNa v
  | .datetime => true

/-- The batch mode's row blankness, the conjunction of the column masks. -/
def batchBlankRow (ds : List DType) (r : List Value) : Bool :=
  (List.zipWith batchBlankCell ds r).all (fun b => b)

/-- The batch mode's trailing-blank trimmer
(`process_file`, lines 47–51): cut after the last non-blank row; when every
row is blank (`non_empty_idx` empty) the frame is left unchanged. -/
def batchTrimRows (ds : List DType) (rows : List (List Value)) : List (List Value) :=
  match lastIdxWhere (fun r => !batchBlankRow ds r) rows with
  | some i => rows.take (i + 1)
  | none => rows

/-- Frame-level wrapper of the batch trimmer; slicing never changes column
names or dtypes. -/
def batchTrim (ds : List DType) (fr : Frame) : Frame :=
  ⟨fr.cols, batchTrimRows ds fr.rows⟩

/-- The Trailing-Blank Trimmer exactly as the claim words it: the prefix
ending at the greatest row index whose row is not fully blank (fully blank
iff every cell is Missing); zero rows when no such row exists. -/
def specTrimRows (rows : List (List Value)) : List (List Value) :=
  match lastIdxWhere (fun r => !rowAllNa r) rows with
  | some i => rows.take (i + 1)
  | none => []

/-- Frame-level wrapper of the claim's trimmer, preserving the column
set. -/
def specTrim (fr : Frame) : Frame := ⟨fr.cols, specTrimRows fr.rows⟩

/-- Model of the pandas column assignment `df[c] = x` with a scalar: an
existing column named `c` is overwritten in place, otherwise a new column
is appended after all existing ones. -/
def dfAssign (fr : Frame) (c : String) (x : Value) : Frame :=
  if c ∈ fr.cols then
    ⟨fr.cols, fr.rows.map (fun r => List.zipWith (fun c' v => if c' = c then x else v) fr.cols r)⟩
  else
    ⟨fr.cols ++ [c], fr.rows.map (fun r => r ++ [x])⟩

/-- Step 4 of the interactive cleaning (lines 74–87) per cell: the
provenance column is skipped by name, and only columns typed Date are
formatted. -/
def fmtStep (tm : List (String × ColType)) (c : String) (v : Value) : Value :=
  if c = "Source_File" then v
  else
    match List.lookup c tm with
    | some .date => formatDateCell v
    | _ => v

/-- The interactive mode's per-file cleaning
(`streamlit_app.clean_and_prepare_df`): missing-detection pass, per-column
type conversion, trailing-blank trim, provenance column, final Date
formatting. -/
def clean_and_prepare_df (srcName : String) (tm : List (String × ColType)) (fr : Frame) : Frame :=
  let rows1 := fr.rows.map (List.map naReplace)
  let rows2 := rows1.map (fun r => List.zipWith (fun c v => convertCell (List.lookup c tm) v) fr.cols r)
  let fr3 := streamlitTrim ⟨fr.cols, rows2⟩
  let fr4 := dfAssign fr3 "Source_File" (.str (pyBasename srcName))
  ⟨fr4.cols, fr4.rows.map (fun r => List.zipWith (fmtStep tm) fr4.cols r)⟩

/-- Whether every cell of a column is a number; used to model pandas dtype
inference. -/
def isNumV : Value → Bool
  | .num _ => true
  | _ => false

/-- Whether a cell is a date; used to model pandas dtype inference. -/
def isDateV : Value → Bool
  | .date _ _ _ => true
  | _ => false

/-- Model of the column dtype pandas infers for the result of the
`applymap` pass: a nonempty column of plain numbers (no missing markers —
those became `pd.NA`, which forces object dtype) is numeric, a nonempty
column of timestamps is datetime, everything else is object. -/
def inferDtypeCol (vs : List Value) : DType :=
  if vs ≠ [] ∧ vs.all isNumV then .number
  else if vs ≠ [] ∧ vs.all isDateV then .datetime
  else .obj

/-- Column `j` of a row-major frame. -/
def getCol (rows : List (List Value)) (j : Nat) : List Value :=
  rows.map (fun r => r.getD j .null)

/-- Per-column dtype inference over a frame. -/
def inferDtypes (cols : List String) (rows : List (List Value)) : List DType :=
  (List.range cols.length).map (fun j => inferDtypeCol (getCol rows j))

/-- The two hard-coded date columns of `consolidate_any.process_file`
(line 58). -/
def batchDateCols : List String := ["Date\nFacture", "Date échéance"]

/-- The seven hard-coded numeric columns of `consolidate_any.process_file`
(lines 63–71). -/
def batchNumericCols : List String :=
  ["Code Centre", "Code Client", "Qtés facturées", "Prix unitaire\nen euros HT",
   "Total\nen euros HT", "TAUX TVA", "Montant TVA\npar article"]

/-- `pd.to_datetime(col, errors='coerce').dt.strftime('%Y-%m-%d')` per
cell: parse, then render; `NaT.strftime` yields missing. -/
def dtStrftimeCell (v : Value) : Value :=
  match toDatetimeCell v with
  | .date y m d => .str (renderDate y m d)
  | _ => .null

/-- The batch date-column pass (line 60) on one row: cells of the two
hard-coded date columns go through `to_datetime` + `strftime`. -/
def batchDateFixRow (cols : List String) (r : List Value) : List Value :=
  List.zipWith (fun c v => if c ∈ batchDateCols then dtStrftimeCell v else v) cols r

/-- The batch numeric-column pass (lines 72–74) on one row: cells of the
seven hard-coded numeric columns go through `to_numeric`. -/
def batchNumFixRow (cols : List String) (r : List Value) : List Value :=
  List.zipWith (fun c v => if c ∈ batchNumericCols then toNumericCell v else v) cols r

/-- The final `astype(str)` pass (lines 86–87) on one row: every cell of an
object-dtype column becomes its Python string form (so `pd.NA` becomes the
literal `"<NA>"`). -/
def astypeObjRow (ds : List DType) (r : List Value) : List Value :=
  List.zipWith (fun d v => if d = DType.obj then Value.str (pyStr v) else v) ds r

/-- Column dtypes after the batch date-column pass: the converted columns
hold strftime strings, hence object dtype. -/
def dtypesAfterDateFix (cols : List String) (ds : List DType) : List DType :=
  List.zipWith (fun c d => if c ∈ batchDateCols then DType.obj else d) cols ds

/-- Column dtypes after the batch numeric-column pass: the converted
columns are numeric. -/
def dtypesAfterNumFix (cols : List String) (ds : List DType) : List DType :=
  List.zipWith (fun c d => if c ∈ batchNumericCols then DType.number else d) cols ds

/-- The batch mode's per-file processing (`consolidate_any.process_file`,
lines 21–88): missing-detection pass, dtype-sensitive trailing trim,
provenance column, hard-coded date and numeric column conversions, and a
final `astype(str)` over object-dtype columns (which renders remaining
`pd.NA` cells as the literal string `"<NA>"`).  Dtypes are re-inferred
after `applymap` and then tracked through the conversions as pandas
does. -/
def process_file (name : String) (fr : Frame) : Frame :=
  let rows1 := fr.rows.map (List.map naReplace)
  let ds1 := inferDtypes fr.cols rows1
  let fr3 := dfAssign ⟨fr.cols, batchTrimRows ds1 rows1⟩ "Source_File" (.str (pyBasename name))
  let ds3 :=
    if "Source_File" ∈ fr.cols then
      List.zipWith (fun c d => if c = "Source_File" then DType.obj else d) fr.cols ds1
    else ds1 ++ [DType.obj]
  let ds5 := dtypesAfterNumFix fr3.cols (dtypesAfterDateFix fr3.cols ds3)
  ⟨fr3.cols,
   (fr3.rows.map (fun r => batchNumFixRow fr3.cols (batchDateFixRow fr3.cols r))).map
     (astypeObjRow ds5)⟩

/-- The interactive mode's post-concatenation NA standardization
(lines 286–289): leftover literal `'nan'`/`'<NA>'`/`'NaT'`/`''` strings
become missing.  The source guards it by object dtype, which is immaterial
here: only string cells are affected and string cells only live in
object-dtype columns. -/
def postConcatCell (v : Value) : Value :=
  match v with
  | .str s => if s = "nan" ∨ s = "<NA>" ∨ s = "NaT" ∨ s = "" then .null else .str s
  | v => v

/-- A recorded schema-mismatch warning: file name, expected column list,
found column list. -/
structure Warning where
  file : String
  expected : List String
  found : List String
deriving DecidableEq, Repr

/-- The Schema Validator (line 267): exact equality of the ordered column
lists. -/
def validateColumns (cand ref : List String) : Bool := cand = ref

/-- The interactive mode's processing loop (lines 256–279): each file is
validated against the standard column list; on mismatch it is skipped with
a warning recording expected versus found columns, otherwise it is cleaned
and accumulated, in input order. -/
def processLoop (std : List String) (tm : List (String × ColType)) :
    List (String × Frame) → List Frame × List Warning
  | [] => ([], [])
  | (n, fr) :: rest =>
    let acc := processLoop std tm rest
    if validateColumns fr.cols std then
      (clean_and_prepare_df n tm fr :: acc.1, acc.2)
    else
      (acc.1, ⟨n, std, fr.cols⟩ :: acc.2)

/-- The interactive mode's consolidation (lines 282–289): if any frame
survived, concatenate all of them in order and standardize leftover NA
strings; otherwise there is no output. -/
def streamlitConsolidate (std : List String) (tm : List (String × ColType))
    (files : List (String × Frame)) : Option Frame :=
  match (processLoop std tm files).1 with
  | [] => none
  | f :: fs =>
    some ⟨f.cols, ((f :: fs).map Frame.rows).flatten.map (List.map postConcatCell)⟩

/-- The batch mode's post-concatenation standardization (lines 167–180)
per cell: literal `"nan"` strings become `None`, remaining missing values
stay missing, and any surviving timestamp is rendered `YYYY-MM-DD`. -/
def batchPostCell (v : Value) : Value :=
  let v1 := match v with
    | .str s => if s = "nan" then Value.null else Value.str s
    | v => v
  match v1 with
  | .date y m d => .str (renderDate y m d)
  | x => x

/-- The batch mode's consolidation (lines 155–171): process every file,
concatenate in input order, standardize.  Per-file read failures (the
`None` results) are outside the model; every listed frame is taken as
successfully read. -/
def batchConsolidate (files : List (String × Frame)) : Option Frame :=
  match files.map (fun p => process_file p.1 p.2) with
  | [] => none
  | f :: fs =>
    some ⟨f.cols, ((f :: fs).map Frame.rows).flatten.map (List.map batchPostCell)⟩

/-- The date-indicating keywords of the type-suggestion loop (line 153). -/
def dateKeywords : List String := ["date", "facture", "échéance", "dt", "time"]

/-- The numeric-indicating keywords of the type-suggestion loop
(line 155). -/
def numericKeywords : List String :=
  ["code", "montant", "prix", "qté", "taux", "total", "num", "id", "valeur",
   "quantity", "amount", "sum", "count"]

/-- Whether one character list begins with another. -/
def startsWithL : List Char → List Char → Bool
  | [], _ => true
  | _ :: _, [] => false
  | a :: as, b :: bs => a = b && startsWithL as bs

/-- Whether `needle` occurs contiguously in `hay` (Python's `in` on
strings). -/
def containsSubL (needle : List Char) : List Char → Bool
  | [] => startsWithL needle []
  | c :: rest => startsWithL needle (c :: rest) || containsSubL needle rest

/-- Python `needle in hay` on strings. -/
def strContains (hay needle : String) : Bool := containsSubL needle.data hay.data

/-- The Type Inference Heuristic (lines 149–157): default Text; a date
keyword occurring in the lower-cased column name suggests Date; otherwise
a numeric keyword suggests Numeric.  Date keywords are checked first. -/
def inferType (col : String) : ColType :=
  let l := pyLower col
  if dateKeywords.any (fun k => strContains l k) then .date
  else if numericKeywords.any (fun k => strContains l k) then .numeric
  else .text

/-- The per-column seeded type map built when the schema is established
(lines 149–158). -/
def seedTypes (cols : List String) : List (String × ColType) :=
  cols.map (fun c => (c, inferType c))

/-- The schema-establishment loop (lines 132–163): walk the uploads in
order; the first file that reads successfully and is non-empty
(`df.empty` is true when either axis has length zero) provides the
standard column list and the seeded types; unreadable or empty files are
passed over. -/
def establishSchema : List (Option Frame) → Option (List String × List (String × ColType))
  | [] => none
  | none :: rest => establishSchema rest
  | some fr :: rest =>
    if fr.rows.isEmpty ∨ fr.cols.isEmpty then establishSchema rest
    else some (fr.cols, seedTypes fr.cols)

/-- Whether a file was passed over by the schema-establishment loop: it
failed to read, or read as an empty frame (either axis of length zero). -/
def readSkipped : Option Frame → Bool
  | none => true
  | some fr => fr.rows.isEmpty || fr.cols.isEmpty

/-- A missing-sentinel literal string in the sense of the persisted-output
claim: exactly `"nan"`, `"NaT"`, `"N/A"`, or a blank/whitespace-only
string. -/
def sentinelStr (s : String) : Bool :=
  decide (s = "nan") || decide (s = "NaT") || decide (s = "N/A") || s.data.all Char.isWhitespace

/-- A persisted cell as the claim demands it: a typed primitive (number or
text) or a true null, and in the text case not a missing-sentinel
literal. -/
def valueOk : Value → Bool
  | .null => true
  | .num _ => true
  | .date _ _ _ => false
  | .str s => !sentinelStr s

/-- The invariant holding of every cell after per-file cleaning, before the
post-concatenation standardization: dates are gone, and a string is
neither `"N/A"` nor whitespace-only-but-nonempty (the four literals
`'nan'`/`'<NA>'`/`'NaT'`/`''` may still occur — the standardization pass
nulls them). -/
def preOk : Value → Bool
  | .null => true
  | .num _ => true
  | .date _ _ _ => false
  | .str s => !(decide (s = "N/A")) && (!(s.data.all Char.isWhitespace) || decide (s = ""))

theorem convertCell_null (o : Option ColType) : convertCell o Value.null = Value.null := by
  cases o with
  | none => rfl
  | some t => cases t <;> rfl

/-- C1: `normalize(v, T)` is Missing for every target type `T` whenever `v`
is null, or a string whose stripped form is empty, or whose stripped
case-insensitive form equals `"N/A"`; the missing-detection test runs
before any coercion (structurally: `normalizeCell` coerces only the output
of `naReplace`). -/
theorem normalize_missing_detected_first (t : ColType) (v : Value)
    (h : v = Value.null ∨ ∃ s, v = Value.str s ∧ (pyStrip s = "" ∨ pyUpper (pyStrip s) = "N/A")) :
    normalizeCell t v = Value.null := by
  have hs : naSentinel v = true := by
    rcases h with h | ⟨s, rfl, hs⟩
    · subst h; rfl
    · simp [naSentinel, hs]
  rw [normalizeCell, naReplace, if_pos hs]
  exact convertCell_null _

theorem normalize_missing_detected_first_witness :
    ((Value.str " n/a ") = Value.null ∨
      ∃ s, (Value.str " n/a ") = Value.str s ∧ (pyStrip s = "" ∨ pyUpper (pyStrip s) = "N/A")) ∧
    normalizeCell ColType.numeric (Value.str " n/a ") = Value.null := by
  refine ⟨Or.inr ⟨" n/a ", rfl, Or.inr (by decide)⟩, ?_⟩
  exact normalize_missing_detected_first ColType.numeric _ (Or.inr ⟨" n/a ", rfl, Or.inr (by decide)⟩)

/-- C6: a non-Missing value that fails to parse as its configured type
normalizes to Missing: unparseable strings under Numeric and under Date
both yield Missing.  `normalizeCell` is a total function, so no exception
can propagate from per-cell normalization. -/
theorem normalize_parse_failure_is_missing (s : String) :
    (parseNumeric s = none → normalizeCell ColType.numeric (Value.str s) = Value.null) ∧
    (parseDate s = none → normalizeCell ColType.date (Value.str s) = Value.null) := by
  constructor <;> intro h
  · by_cases hs : naSentinel (Value.str s)
    · rw [normalizeCell, naReplace, if_pos hs]; rfl
    · rw [normalizeCell, naReplace, if_neg hs]
      simp [convertCell, toNumericCell, h]
  · by_cases hs : naSentinel (Value.str s)
    · rw [normalizeCell, naReplace, if_pos hs]; rfl
    · rw [normalizeCell, naReplace, if_neg hs]
      simp [convertCell, toDatetimeCell, h]

theorem normalize_parse_failure_is_missing_witness :
    (parseNumeric "abc" = none ∧ normalizeCell ColType.numeric (Value.str "abc") = Value.null) ∧
    (parseDate "abc" = none ∧ normalizeCell ColType.date (Value.str "abc") = Value.null) :=
  ⟨⟨by decide, (normalize_parse_failure_is_missing "abc").1 (by decide)⟩,
   ⟨by decide, (normalize_parse_failure_is_missing "abc").2 (by decide)⟩⟩

/-- C8: type inference defaults to Text, a date keyword in the lower-cased
column name gives Date, otherwise a numeric keyword gives Numeric; the
date check runs first, so when both keyword sets could match, Date wins —
in particular `"Date Total"` infers Date. -/
theorem infer_type_keyword_rules :
    (∀ c, dateKeywords.any (fun k => strContains (pyLower c) k) = true → inferType c = ColType.date) ∧
    (∀ c, dateKeywords.any (fun k => strContains (pyLower c) k) = false →
      numericKeywords.any (fun k => strContains (pyLower c) k) = true → inferType c = ColType.numeric) ∧
    (∀ c, dateKeywords.any (fun k => strContains (pyLower c) k) = false →
      numericKeywords.any (fun k => strContains (pyLower c) k) = false → inferType c = ColType.text) ∧
    inferType "Date Total" = ColType.date := by
  refine ⟨fun c h => ?_, fun c h1 h2 => ?_, fun c h1 h2 => ?_, by decide⟩
  · simp [inferType, h]
  · simp [inferType, h1, h2]
  · simp [inferType, h1, h2]

theorem infer_type_keyword_rules_witness :
    (dateKeywords.any (fun k => strContains (pyLower "Montant") k) = false ∧
      numericKeywords.any (fun k => strContains (pyLower "Montant") k) = true ∧
      inferType "Montant" = ColType.numeric) ∧
    (dateKeywords.any (fun k => strContains (pyLower "Name") k) = false ∧
      numericKeywords.any (fun k => strContains (pyLower "Name") k) = false ∧
      inferType "Name" = ColType.text) :=
  ⟨⟨by decide, by decide, infer_type_keyword_rules.2.1 "Montant" (by decide) (by decide)⟩,
   ⟨by decide, by decide, infer_type_keyword_rules.2.2.1 "Name" (by decide) (by decide)⟩⟩

/-- C5 counterexample: the first uploaded file parses successfully and has
one column (`"A"`) but zero rows; `df.empty` is true for it, so the loop
passes it over and the schema comes from the second file — the claim's
"yields at least one column" criterion would have established `["A"]`. -/
theorem schema_first_file_counterexample :
    establishSchema [some ⟨["A"], []⟩, some ⟨["B"], [[Value.num 1]]⟩]
        = some (["B"], [("B", ColType.text)]) ∧
    (Frame.mk ["A"] []).cols ≠ [] ∧
    establishSchema [some ⟨["A"], []⟩, some ⟨["B"], [[Value.num 1]]⟩]
        ≠ some (["A"], seedTypes ["A"]) := by
  refine ⟨by decide, by decide, by decide⟩

/-- C5 amended: the schema (and the seeded per-column types) comes from the
first file that parses successfully and yields a non-empty frame (at least
one row and at least one column); files that fail to read or read as empty
are passed over.  The result does not depend on the files after the
establishing one — the schema is fixed from that point on. -/
theorem schema_from_first_nonempty_file (pre rest : List (Option Frame)) (fr : Frame)
    (h1 : ∀ x ∈ pre, readSkipped x = true)
    (h2 : fr.rows ≠ [] ∧ fr.cols ≠ []) :
    establishSchema (pre ++ some fr :: rest) = some (fr.cols, seedTypes fr.cols) := by
  induction pre with
  | nil =>
    simp only [List.nil_append, establishSchema]
    rw [if_neg]
    simp [h2.1, h2.2]
  | cons x xs ih =>
    have hx : readSkipped x = true := h1 x (List.mem_cons_self x xs)
    have hxs : ∀ y ∈ xs, readSkipped y = true := fun y hy => h1 y (List.mem_cons_of_mem x hy)
    cases x with
    | none => simpa [establishSchema] using ih hxs
    | some g =>
      have hg : (g.rows.isEmpty ∨ g.cols.isEmpty) := by
        simpa [readSkipped] using hx
      simp only [List.cons_append, establishSchema]
      rw [if_pos hg]
      exact ih hxs

theorem schema_from_first_nonempty_file_witness :
    (∀ x ∈ [(none : Option Frame), some ⟨["A"], []⟩], readSkipped x = true) ∧
    ((Frame.mk ["Date"] [[Value.null]]).rows ≠ [] ∧ (Frame.mk ["Date"] [[Value.null]]).cols ≠ []) ∧
    establishSchema ([none, some ⟨["A"], []⟩] ++ some ⟨["Date"], [[Value.null]]⟩ :: [])
        = some (["Date"], [("Date", ColType.date)]) := by
  refine ⟨by decide, ⟨by decide, by decide⟩, ?_⟩
  have := schema_from_first_nonempty_file [none, some ⟨["A"], []⟩] [] ⟨["Date"], [[Value.null]]⟩
    (by decide) ⟨by decide, by decide⟩
  simpa [seedTypes] using this

theorem processLoop_eq (std : List String) (tm : List (String × ColType))
    (files : List (String × Frame)) :
    processLoop std tm files =
      ((files.filter (fun p => validateColumns p.2.cols std)).map
          (fun p => clean_and_prepare_df p.1 tm p.2),
       (files.filter (fun p => !validateColumns p.2.cols std)).map
          (fun p => Warning.mk p.1 std p.2.cols)) := by
  induction files with
  | nil => rfl
  | cons p rest ih =>
    obtain ⟨n, fr⟩ := p
    by_cases h : validateColumns fr.cols std
    · simp [processLoop, h, ih, List.filter_cons]
    · simp [processLoop, h, ih, List.filter_cons]

/-- C7: schema validation accepts exactly the candidate column lists that
equal the reference (same names, order, count), `["A","B"]` against
`["B","A"]` is rejected, and the processing loop cleans exactly the
validated files while every mismatched file is skipped with a warning
recording the expected and the found column lists. -/
theorem validate_exact_match_and_skip :
    (∀ c r, validateColumns c r = true ↔ c = r) ∧
    validateColumns ["A", "B"] ["B", "A"] = false ∧
    (∀ std tm files,
      processLoop std tm files =
        ((files.filter (fun p => validateColumns p.2.cols std)).map
            (fun p => clean_and_prepare_df p.1 tm p.2),
         (files.filter (fun p => !validateColumns p.2.cols std)).map
            (fun p => Warning.mk p.1 std p.2.cols))) := by
  exact ⟨fun c r => by simp [validateColumns], by decide, processLoop_eq⟩

theorem dropWhile_append_of_all {α : Type} (p : α → Bool) (l l' : List α) (h : l.all p = true) :
    (l ++ l').dropWhile p = l'.dropWhile p := by
  induction l with
  | nil => rfl
  | cons a t ih =>
    simp only [List.all_cons, Bool.and_eq_true] at h
    simp [List.dropWhile_cons, h.1, ih h.2]

theorem dropWhile_append_of_exists {α : Type} (p : α → Bool) (l l' : List α)
    (h : ∃ x ∈ l, p x = false) : (l ++ l').dropWhile p = l.dropWhile p ++ l' := by
  induction l with
  | nil => simp at h
  | cons a t ih =>
    by_cases hpa : p a
    · obtain ⟨x, hx, hpx⟩ := h
      rcases List.mem_cons.mp hx with rfl | hx
      · simp [hpa] at hpx
      · simp [List.dropWhile_cons, hpa, ih ⟨x, hx, hpx⟩]
    · simp [List.dropWhile_cons, hpa]

theorem dropWhile_self_idem {α : Type} (p : α → Bool) (l : List α) :
    (l.dropWhile p).dropWhile p = l.dropWhile p := by
  induction l with
  | nil => rfl
  | cons a t ih =>
    by_cases hpa : p a
    · simp [List.dropWhile_cons, hpa, ih]
    · simp [List.dropWhile_cons, hpa]

theorem dropTrail_idem {α : Type} (b : α → Bool) (l : List α) :
    dropTrail b (dropTrail b l) = dropTrail b l := by
  unfold dropTrail
  rw [List.reverse_reverse, dropWhile_self_idem]

theorem dropTrail_of_all {α : Type} (b : α → Bool) (l : List α) (h : l.all b = true) :
    dropTrail b l = [] := by
  unfold dropTrail
  have : l.reverse.dropWhile b = [] := by
    rw [List.dropWhile_eq_nil_iff]
    intro x hx
    exact (List.all_eq_true.mp h) x (List.mem_reverse.mp hx)
  rw [this]; rfl

theorem lastIdxWhere_eq_none_iff {α : Type} (p : α → Bool) (l : List α) :
    lastIdxWhere p l = none ↔ ∀ x ∈ l, p x = false := by
  induction l with
  | nil => simp [lastIdxWhere]
  | cons a t ih =>
    simp only [lastIdxWhere]
    split
    next i h =>
      have ht : ¬ (∀ x ∈ t, p x = false) := by rw [← ih]; simp [h]
      simp only [List.forall_mem_cons]
      constructor
      · intro hc; exact Option.noConfusion hc
      · intro hc; exact absurd hc.2 ht
    next h =>
      have ht : ∀ x ∈ t, p x = false := ih.mp h
      by_cases hpa : p a
      · rw [if_pos hpa]
        simp only [List.forall_mem_cons]
        constructor
        · intro hc; exact Option.noConfusion hc
        · intro hc; rw [hc.1] at hpa; exact Bool.noConfusion hpa
      · rw [if_neg hpa]
        simp only [List.forall_mem_cons]
        constructor
        · intro _; exact ⟨Bool.eq_false_iff.mpr hpa, ht⟩
        · intro _; trivial

theorem lastIdxWhere_some_exists {α : Type} (p : α → Bool) (l : List α) (i : Nat)
    (h : lastIdxWhere p l = some i) : ∃ x ∈ l, p x = true := by
  by_contra hc
  push_neg at hc
  have : ∀ x ∈ l, p x = false := fun x hx => Bool.eq_false_iff.mpr (hc x hx)
  rw [(lastIdxWhere_eq_none_iff p l).mpr this] at h
  exact Option.noConfusion h

theorem lastIdxWhere_some_take {α : Type} (p : α → Bool) (l : List α) (i : Nat)
    (h : lastIdxWhere p l = some i) : l.take (i + 1) = dropTrail (fun x => !p x) l := by
  induction l generalizing i with
  | nil => simp [lastIdxWhere] at h
  | cons a t ih =>
    simp only [lastIdxWhere] at h
    cases ht : lastIdxWhere p t with
    | some j =>
      rw [ht] at h
      injection h with h
      subst h
      obtain ⟨x, hx, hpx⟩ := lastIdxWhere_some_exists p t j ht
      have hx' : ∃ y ∈ t.reverse, (!p y) = false := ⟨x, List.mem_reverse.mpr hx, by simp [hpx]⟩
      unfold dropTrail
      rw [List.reverse_cons, dropWhile_append_of_exists _ _ _ hx', List.reverse_append]
      simp only [List.reverse_singleton, List.singleton_append, List.take_succ_cons]
      rw [ih j ht]
      rfl
    | none =>
      rw [ht] at h
      by_cases hpa : p a
      · rw [if_pos hpa] at h
        injection h with h
        subst h
        have hall : t.reverse.all (fun x => !p x) = true := by
          rw [List.all_eq_true]
          intro x hx
          simp [(lastIdxWhere_eq_none_iff p t).mp ht x (List.mem_reverse.mp hx)]
        unfold dropTrail
        rw [List.reverse_cons, dropWhile_append_of_all _ _ _ hall]
        simp [List.dropWhile_cons, hpa]
      · rw [if_neg hpa] at h
        exact Option.noConfusion h

theorem streamlitTrim_eq (fr : Frame) :
    streamlitTrim fr =
      if fr.rows.isEmpty ∨ fr.cols.isEmpty then fr
      else ⟨fr.cols, dropTrail rowAllNa fr.rows⟩ := by
  unfold streamlitTrim
  by_cases hg : fr.rows.isEmpty = true ∨ fr.cols.isEmpty = true
  · rw [if_pos hg, if_pos hg]
  · rw [if_neg hg, if_neg hg]
    by_cases hall : fr.rows.all rowAllNa
    · rw [if_pos hall]
      rw [dropTrail_of_all _ _ hall]
    · rw [if_neg hall]
      have hne : ¬ (∀ x ∈ fr.rows, (!rowAllNa x) = false) := by
        intro hc
        apply hall
        rw [List.all_eq_true]
        intro x hx
        simpa using hc x hx
      split
      next i hL =>
        have ht := lastIdxWhere_some_take _ _ _ hL
        simp only [Bool.not_not] at ht
        rw [ht]
      next hL =>
        exact absurd ((lastIdxWhere_eq_none_iff _ _).mp hL) hne

theorem batchTrimRows_eq (ds : List DType) (rows : List (List Value)) :
    batchTrimRows ds rows =
      match lastIdxWhere (fun r => !batchBlankRow ds r) rows with
      | some _ => dropTrail (batchBlankRow ds) rows
      | none => rows := by
  unfold batchTrimRows
  cases hL : lastIdxWhere (fun r => !batchBlankRow ds r) rows with
  | none => rfl
  | some i =>
    have := lastIdxWhere_some_take _ _ _ hL
    simp only [Bool.not_not] at this
    simpa using this

theorem dropWhile_ne_nil_exists_not {α : Type} (p : α → Bool) (l : List α)
    (h : ∃ x ∈ l, p x = false) : ∃ x ∈ l.dropWhile p, p x = false := by
  induction l with
  | nil => simp at h
  | cons a t ih =>
    by_cases hpa : p a
    · obtain ⟨x, hx, hpx⟩ := h
      rcases List.mem_cons.mp hx with rfl | hx
      · simp [hpa] at hpx
      · simpa [List.dropWhile_cons, hpa] using ih ⟨x, hx, hpx⟩
    · exact ⟨a, by simp [List.dropWhile_cons, hpa], Bool.eq_false_iff.mpr hpa⟩

theorem exists_not_mem_dropTrail {α : Type} (b : α → Bool) (l : List α)
    (h : ∃ x ∈ l, b x = false) : ∃ x ∈ dropTrail b l, b x = false := by
  have h' : ∃ x ∈ l.reverse, b x = false := by
    obtain ⟨x, hx, hbx⟩ := h
    exact ⟨x, List.mem_reverse.mpr hx, hbx⟩
  obtain ⟨x, hx, hbx⟩ := dropWhile_ne_nil_exists_not b l.reverse h'
  exact ⟨x, by unfold dropTrail; exact List.mem_reverse.mpr hx, hbx⟩

/-- C9: both trailing-blank trimmers are idempotent — the interactive one
(`clean_and_prepare_df`, lines 57–69) and the batch one (`process_file`,
lines 33–51, whose blankness masks are fixed by the column dtypes `ds`,
which slicing never changes). -/
theorem trim_idempotent (ds : List DType) (fr : Frame) :
    streamlitTrim (streamlitTrim fr) = streamlitTrim fr ∧
    batchTrim ds (batchTrim ds fr) = batchTrim ds fr := by
  constructor
  · rw [streamlitTrim_eq fr]
    by_cases hg : fr.rows.isEmpty ∨ fr.cols.isEmpty
    · rw [if_pos hg, streamlitTrim_eq fr, if_pos hg]
    · rw [if_neg hg]
      rw [streamlitTrim_eq]
      by_cases hg2 : (dropTrail rowAllNa fr.rows).isEmpty ∨ fr.cols.isEmpty
      · rw [if_pos hg2]
      · rw [if_neg hg2]
        simp only [Frame.mk.injEq, true_and]
        exact dropTrail_idem _ _
  · unfold batchTrim
    simp only [Frame.mk.injEq, true_and]
    rw [batchTrimRows_eq ds fr.rows]
    cases hL : lastIdxWhere (fun r => !batchBlankRow ds r) fr.rows with
    | none =>
      simp only
      rw [batchTrimRows_eq, hL]
    | some i =>
      simp only
      obtain ⟨x, hx, hpx⟩ := lastIdxWhere_some_exists _ _ _ hL
      have hbx : batchBlankRow ds x = false := by simpa using hpx
      obtain ⟨y, hy, hby⟩ := exists_not_mem_dropTrail (batchBlankRow ds) fr.rows ⟨x, hx, hbx⟩
      have hne : lastIdxWhere (fun r => !batchBlankRow ds r) (dropTrail (batchBlankRow ds) fr.rows) ≠ none := by
        intro hc
        have := (lastIdxWhere_eq_none_iff _ _).mp hc y hy
        simp [hby] at this
      cases hL2 : lastIdxWhere (fun r => !batchBlankRow ds r) (dropTrail (batchBlankRow ds) fr.rows) with
      | none => exact absurd hL2 hne
      | some j =>
        rw [batchTrimRows_eq, hL2]
        exact dropTrail_idem _ _

/-- C3 counterexample: the batch trimmer (with the dtypes the batch mode
itself infers for this frame) cuts away a trailing row whose only cell is
the number `0`, although that row is not fully blank in the claim's sense
(no cell is Missing), so the result is not the prefix ending at the
greatest non-fully-blank row index. -/
theorem trailing_trim_counterexample :
    inferDtypes ["Amount"] [[Value.num 1], [Value.num 0]] = [DType.number] ∧
    batchTrimRows [DType.number] [[Value.num 1], [Value.num 0]] = [[Value.num 1]] ∧
    specTrimRows [[Value.num 1], [Value.num 0]] = [[Value.num 1], [Value.num 0]] ∧
    batchTrimRows [DType.number] [[Value.num 1], [Value.num 0]]
      ≠ specTrimRows [[Value.num 1], [Value.num 0]] := by decide

/-- C3 amended: the interactive trimmer returns exactly the claim's
result — the prefix up to the greatest not-fully-blank row (blank meaning
every cell Missing), zero rows with the same column set when no such row
exists — for every frame with at least one column.  (The batch trimmer
does not: see the counterexample.) -/
theorem trailing_trim_matches_spec (fr : Frame) (h : fr.cols ≠ []) :
    streamlitTrim fr = specTrim fr := by
  rw [streamlitTrim_eq fr]
  have hc : fr.cols.isEmpty = false := by
    cases hcc : fr.cols with
    | nil => exact absurd hcc h
    | cons a t => rfl
  by_cases hr : fr.rows.isEmpty
  · rw [if_pos (Or.inl hr)]
    have hrw : fr.rows = [] := List.isEmpty_iff.mp hr
    unfold specTrim specTrimRows
    rw [hrw]
    cases fr with
    | mk c r =>
      simp only at hrw
      rw [hrw]
      rfl
  · rw [if_neg (by simp [hr, hc])]
    unfold specTrim specTrimRows
    split
    next i hL =>
      have ht := lastIdxWhere_some_take _ _ _ hL
      simp only [Bool.not_not] at ht
      rw [ht]
    next hL =>
      have hall : fr.rows.all rowAllNa = true := by
        rw [List.all_eq_true]
        intro x hx
        have := (lastIdxWhere_eq_none_iff _ _).mp hL x hx
        simpa using this
      rw [dropTrail_of_all _ _ hall]

theorem trailing_trim_matches_spec_witness :
    ((Frame.mk ["A"] [[Value.null]]).cols ≠ []) ∧
    streamlitTrim ⟨["A"], [[Value.null]]⟩ = specTrim ⟨["A"], [[Value.null]]⟩ :=
  ⟨by decide, trailing_trim_matches_spec ⟨["A"], [[Value.null]]⟩ (by decide)⟩

/-- C4: the two cleaning routines implement different blankness rules — in
the batch mode a numeric-dtype cell equal to `0` is blank for trimming, in
the interactive mode only true-missing counts — and consequently on a
frame whose last row holds only a `0` in a numeric column the two return
different frames: the batch routine drops that row, the interactive one
keeps it. -/
theorem cleaning_modes_diverge :
    batchBlankRow [DType.number] [Value.num 0] = true ∧
    rowAllNa [Value.num 0] = false ∧
    process_file "f.xlsx" ⟨["Amount"], [[Value.num 1], [Value.num 0]]⟩
      = ⟨["Amount", "Source_File"], [[Value.num 1, Value.str "f.xlsx"]]⟩ ∧
    clean_and_prepare_df "f.xlsx" [("Amount", ColType.numeric)] ⟨["Amount"], [[Value.num 1], [Value.num 0]]⟩
      = ⟨["Amount", "Source_File"], [[Value.num 1, Value.str "f.xlsx"], [Value.num 0, Value.str "f.xlsx"]]⟩ ∧
    process_file "f.xlsx" ⟨["Amount"], [[Value.num 1], [Value.num 0]]⟩
      ≠ clean_and_prepare_df "f.xlsx" [("Amount", ColType.numeric)] ⟨["Amount"], [[Value.num 1], [Value.num 0]]⟩ := by
  decide

theorem isDigit_not_whitespace (c : Char) (h : c.isDigit = true) : c.isWhitespace = false := by
  by_contra hc
  rw [Bool.not_eq_false] at hc
  simp [Char.isWhitespace] at hc
  rcases hc with ((rfl | rfl) | rfl) | rfl <;> simp [Char.isDigit] at h

theorem digitChar_isDigit (m : Nat) (h : m < 10) : (Nat.digitChar m).isDigit = true := by
  interval_cases m <;> decide

theorem natDigits_spec (n : Nat) :
    natDigits n ≠ [] ∧ ∀ c ∈ natDigits n, c.isDigit = true := by
  induction n using Nat.strong_induction_on with
  | _ n ih =>
    rw [natDigits]
    by_cases h : n < 10
    · rw [if_pos h]
      exact ⟨by simp, by simpa using digitChar_isDigit n h⟩
    · rw [if_neg h]
      have hdiv : n / 10 < n := Nat.div_lt_self (by omega) (by omega)
      refine ⟨by simp, ?_⟩
      intro c hc
      rcases List.mem_append.mp hc with hc | hc
      · exact (ih _ hdiv).2 c hc
      · rw [List.mem_singleton.mp hc]
        exact digitChar_isDigit _ (Nat.mod_lt _ (by omega))

theorem renderInt_chars (n : Int) :
    (renderInt n).data ≠ [] ∧ ∀ c ∈ (renderInt n).data, c.isDigit = true ∨ c = '-' := by
  cases n with
  | ofNat m =>
    exact ⟨(natDigits_spec m).1, fun c hc => Or.inl ((natDigits_spec m).2 c hc)⟩
  | negSucc m =>
    refine ⟨by simp [renderInt], ?_⟩
    intro c hc
    simp only [renderInt] at hc
    rcases List.mem_cons.mp hc with rfl | hc
    · exact Or.inr rfl
    · exact Or.inl ((natDigits_spec (m + 1)).2 c hc)

theorem padZero_chars (k : Nat) (l : List Char) (hl : ∀ c ∈ l, c.isDigit = true) :
    ∀ c ∈ padZero k l, c.isDigit = true := by
  intro c hc
  rcases List.mem_append.mp hc with hc | hc
  · rw [List.eq_of_mem_replicate hc]; decide
  · exact hl c hc

theorem renderDate_chars (y m d : Nat) :
    ('-' ∈ (renderDate y m d).data) ∧ ∀ c ∈ (renderDate y m d).data, c.isDigit = true ∨ c = '-' := by
  constructor
  · simp [renderDate]
  · intro c hc
    simp only [renderDate, List.mem_append, List.mem_cons] at hc
    rcases hc with hc | rfl | hc | rfl | hc
    · exact Or.inl (padZero_chars _ _ (natDigits_spec y).2 c hc)
    · exact Or.inr rfl
    · exact Or.inl (padZero_chars _ _ (natDigits_spec m).2 c hc)
    · exact Or.inr rfl
    · exact Or.inl (padZero_chars _ _ (natDigits_spec d).2 c hc)

theorem preOk_of_digit_dash (s : String) (hne : s.data ≠ [])
    (hch : ∀ c ∈ s.data, c.isDigit = true ∨ c = '-') : preOk (Value.str s) = true := by
  have hnNA : s ≠ "N/A" := by
    intro hs
    have : '/' ∈ s.data := by rw [hs]; decide
    rcases hch '/' this with hd | hd <;> simp at hd
  have hnws : s.data.all Char.isWhitespace = false := by
    cases hd : s.data with
    | nil => exact absurd hd hne
    | cons c t =>
      have hcmem : c ∈ s.data := by rw [hd]; exact List.mem_cons_self c t
      have : c.isWhitespace = false := by
        rcases hch c hcmem with h | rfl
        · exact isDigit_not_whitespace c h
        · decide
      simp [hd, List.all_cons, this]
  simp [preOk, hnNA, hnws]

theorem preOk_renderInt (n : Int) : preOk (Value.str (renderInt n)) = true :=
  preOk_of_digit_dash _ (renderInt_chars n).1 (renderInt_chars n).2

theorem preOk_renderDate (y m d : Nat) : preOk (Value.str (renderDate y m d)) = true := by
  refine preOk_of_digit_dash _ ?_ (renderDate_chars y m d).2
  intro hc
  have := (renderDate_chars y m d).1
  rw [hc] at this
  simp at this

theorem stripChars_eq_nil_iff (l : List Char) :
    stripChars l = [] ↔ l.all Char.isWhitespace = true := by
  unfold stripChars
  constructor
  · intro h
    have h2 : (l.dropWhile Char.isWhitespace).reverse.dropWhile Char.isWhitespace = [] := by
      have := congrArg List.reverse h
      simpa using this
    have hdrop : ∀ x ∈ l.dropWhile Char.isWhitespace, x.isWhitespace = true := by
      intro x hx
      exact List.dropWhile_eq_nil_iff.mp h2 x (List.mem_reverse.mpr hx)
    rw [List.all_eq_true]
    intro x hx
    rw [← List.takeWhile_append_dropWhile Char.isWhitespace l] at hx
    rcases List.mem_append.mp hx with hx | hx
    · exact List.mem_takeWhile_imp hx
    · exact hdrop x hx
  · intro h
    have : l.dropWhile Char.isWhitespace = [] := by
      rw [List.dropWhile_eq_nil_iff]
      exact fun x hx => List.all_eq_true.mp h x hx
    rw [this]
    rfl

theorem pyStrip_eq_empty_iff (s : String) :
    pyStrip s = "" ↔ s.data.all Char.isWhitespace = true := by
  rw [← stripChars_eq_nil_iff]
  unfold pyStrip
  rw [String.ext_iff]

theorem preOk_str_of_not_sentinel (s : String) (h : naSentinel (Value.str s) = false) :
    preOk (Value.str s) = true := by
  have hdec : ¬ (pyStrip s = "" ∨ pyUpper (pyStrip s) = "N/A") := by
    intro hc
    rw [show naSentinel (Value.str s) = decide (pyStrip s = "" ∨ pyUpper (pyStrip s) = "N/A") from rfl] at h
    rw [decide_eq_true hc] at h
    exact Bool.noConfusion h
  push_neg at hdec
  have hNA : s ≠ "N/A" := by
    rintro rfl
    exact hdec.2 (by decide)
  have hws : s.data.all Char.isWhitespace = false := by
    by_contra hc
    rw [Bool.not_eq_false] at hc
    exact hdec.1 ((pyStrip_eq_empty_iff s).mpr hc)
  simp [preOk, hNA, hws]

theorem preOk_toText_of_str (v : Value) (h : preOk (Value.str (pyStr v)) = true) :
    preOk (toTextCell v) = true := by
  unfold toTextCell
  by_cases hc : pyStr v = "nan" ∨ pyStr v = "<NA>" ∨ pyStr v = ""
  · rw [if_pos hc]; rfl
  · rw [if_neg hc]; exact h

theorem preOk_notInMap_of_str (v : Value) (h : preOk (Value.str (pyStr v)) = true) :
    preOk (notInMapCell v) = true := by
  unfold notInMapCell
  by_cases hc : pyStr v = "nan" ∨ pyStr v = "<NA>"
  · rw [if_pos hc]; rfl
  · rw [if_neg hc]; exact h

theorem preOk_pyStr_naReplace (v : Value) (hv : naReplace v ≠ Value.null) :
    preOk (Value.str (pyStr (naReplace v))) = true := by
  unfold naReplace at hv ⊢
  by_cases hs : naSentinel v
  · rw [if_pos hs] at hv; exact absurd rfl hv
  · rw [if_neg hs]
    cases v with
    | null => exact absurd rfl hs
    | str s => exact preOk_str_of_not_sentinel s (Bool.eq_false_iff.mpr hs)
    | num n => exact preOk_renderInt n
    | date y m d => exact preOk_renderDate y m d

theorem preOk_toText_naReplace (v : Value) : preOk (toTextCell (naReplace v)) = true := by
  by_cases hv : naReplace v = Value.null
  · rw [hv]; decide
  · exact preOk_toText_of_str _ (preOk_pyStr_naReplace v hv)

theorem preOk_notInMap_naReplace (v : Value) : preOk (notInMapCell (naReplace v)) = true := by
  by_cases hv : naReplace v = Value.null
  · rw [hv]; decide
  · exact preOk_notInMap_of_str _ (preOk_pyStr_naReplace v hv)

theorem preOk_toNumeric (v : Value) : preOk (toNumericCell v) = true := by
  cases v with
  | null => rfl
  | num n => rfl
  | date y m d => rfl
  | str s =>
    have he : toNumericCell (Value.str s)
        = match parseNumeric s with | some n => Value.num n | none => Value.null := rfl
    cases hp : parseNumeric s with
    | none => rw [he, hp]; rfl
    | some n => rw [he, hp]; rfl

theorem toDatetimeCell_shape (v : Value) :
    toDatetimeCell v = Value.null ∨ ∃ y m d, toDatetimeCell v = Value.date y m d := by
  cases v with
  | null => exact Or.inl rfl
  | num n => exact Or.inl rfl
  | date y m d => exact Or.inr ⟨y, m, d, rfl⟩
  | str s =>
    have he : toDatetimeCell (Value.str s)
        = match parseDate s with | some (y, m, d) => Value.date y m d | none => Value.null := rfl
    cases hp : parseDate s with
    | none => rw [he, hp]; exact Or.inl rfl
    | some t =>
      obtain ⟨y, m, d⟩ := t
      rw [he, hp]
      exact Or.inr ⟨y, m, d, rfl⟩

theorem preOk_format_toDatetime (v : Value) :
    preOk (formatDateCell (toDatetimeCell v)) = true := by
  rcases toDatetimeCell_shape v with h | ⟨y, m, d, h⟩
  · rw [h]; rfl
  · rw [h]
    exact preOk_renderDate y m d

theorem preOk_fmt_convert (tm : List (String × ColType)) (c : String) (v : Value)
    (hc : c ≠ "Source_File") :
    preOk (fmtStep tm c (convertCell (List.lookup c tm) (naReplace v))) = true := by
  unfold fmtStep
  rw [if_neg hc]
  cases hl : List.lookup c tm with
  | none => exact preOk_notInMap_naReplace v
  | some t =>
    cases t with
    | text => exact preOk_toText_naReplace v
    | numeric => exact preOk_toNumeric _
    | date => exact preOk_format_toDatetime _

theorem preOk_fmt_assign_convert (tm : List (String × ColType)) (c : String) (v x : Value)
    (hx : preOk x = true) :
    preOk (fmtStep tm c (if c = "Source_File" then x else convertCell (List.lookup c tm) (naReplace v))) = true := by
  by_cases hc : c = "Source_File"
  · rw [if_pos hc]
    unfold fmtStep
    rw [if_pos hc]
    exact hx
  · rw [if_neg hc]
    exact preOk_fmt_convert tm c v hc

theorem dropTrail_subset {α : Type} (b : α → Bool) (l : List α) : dropTrail b l ⊆ l := by
  intro x hx
  unfold dropTrail at hx
  have := (List.dropWhile_sublist (l := l.reverse) (p := b)).subset (List.mem_reverse.mp hx)
  exact List.mem_reverse.mp this

theorem streamlitTrim_cols (fr : Frame) : (streamlitTrim fr).cols = fr.cols := by
  rw [streamlitTrim_eq]
  split <;> rfl

theorem streamlitTrim_rows_subset (fr : Frame) : (streamlitTrim fr).rows ⊆ fr.rows := by
  rw [streamlitTrim_eq]
  split
  · exact fun x hx => hx
  · exact dropTrail_subset _ _

theorem batchTrimRows_subset (ds : List DType) (rows : List (List Value)) :
    batchTrimRows ds rows ⊆ rows := by
  unfold batchTrimRows
  split
  · exact List.take_subset _ _
  · exact fun x hx => hx

theorem mem_zipWith_exists {α β γ : Type} (f : α → β → γ) (as : List α) (bs : List β) (c : γ)
    (h : c ∈ List.zipWith f as bs) : ∃ a b, a ∈ as ∧ b ∈ bs ∧ c = f a b := by
  induction as generalizing bs with
  | nil => simp at h
  | cons a as ih =>
    cases bs with
    | nil => simp at h
    | cons b bs =>
      rw [List.zipWith_cons_cons] at h
      rcases List.mem_cons.mp h with rfl | h
      · exact ⟨a, b, List.mem_cons_self a as, List.mem_cons_self b bs, rfl⟩
      · obtain ⟨a', b', ha, hb, hc⟩ := ih bs h
        exact ⟨a', b', List.mem_cons_of_mem a ha, List.mem_cons_of_mem b hb, hc⟩

theorem zipWith_zipWith_same {α β γ δ : Type} (f : α → γ → δ) (g : α → β → γ)
    (as : List α) (bs : List β) :
    List.zipWith f as (List.zipWith g as bs) = List.zipWith (fun a b => f a (g a b)) as bs := by
  induction as generalizing bs with
  | nil => rfl
  | cons a as ih =>
    cases bs with
    | nil => rfl
    | cons b bs => simp [List.zipWith_cons_cons, ih]

theorem length_zipWith_of_eq {α β γ : Type} (f : α → β → γ) (as : List α) (bs : List β)
    (h : bs.length = as.length) : (List.zipWith f as bs).length = as.length := by
  rw [List.length_zipWith, h, Nat.min_self]

theorem inferDtypes_length (cols : List String) (rows : List (List Value)) :
    (inferDtypes cols rows).length = cols.length := by
  simp [inferDtypes]

theorem fmtStep_provenance (tm : List (String × ColType)) (x : Value) :
    fmtStep tm "Source_File" x = x := by
  unfold fmtStep
  rw [if_pos rfl]

theorem clean_cells_preOk (name : String) (tm : List (String × ColType)) (fr : Frame)
    (hrect : ∀ r ∈ fr.rows, r.length = fr.cols.length)
    (hname : preOk (Value.str (pyBasename name)) = true) :
    ∀ row ∈ (clean_and_prepare_df name tm fr).rows, ∀ v ∈ row, preOk v = true := by
  have hmain : ∀ (cols : List String) (rows0 : List (List Value)),
      (∀ r ∈ rows0, r.length = cols.length) →
      ∀ row ∈ (dfAssign (streamlitTrim ⟨cols, (rows0.map (List.map naReplace)).map
            (fun r => List.zipWith (fun c w => convertCell (List.lookup c tm) w) cols r)⟩)
          "Source_File" (Value.str (pyBasename name))).rows.map
          (fun r => List.zipWith (fmtStep tm)
            (dfAssign (streamlitTrim ⟨cols, (rows0.map (List.map naReplace)).map
              (fun r => List.zipWith (fun c w => convertCell (List.lookup c tm) w) cols r)⟩)
              "Source_File" (Value.str (pyBasename name))).cols r),
        ∀ v ∈ row, preOk v = true := by
    intro cols rows0 hrect0 row hrow v hv
    obtain ⟨r4, hr4, rfl⟩ := List.mem_map.mp hrow
    have hTcols : (streamlitTrim ⟨cols, (rows0.map (List.map naReplace)).map
        (fun r => List.zipWith (fun c w => convertCell (List.lookup c tm) w) cols r)⟩).cols
        = cols := streamlitTrim_cols _
    by_cases hSF : "Source_File" ∈ (streamlitTrim ⟨cols, (rows0.map (List.map naReplace)).map
        (fun r => List.zipWith (fun c w => convertCell (List.lookup c tm) w) cols r)⟩).cols
    · rw [show dfAssign (streamlitTrim ⟨cols, (rows0.map (List.map naReplace)).map
            (fun r => List.zipWith (fun c w => convertCell (List.lookup c tm) w) cols r)⟩)
            "Source_File" (Value.str (pyBasename name))
          = ⟨(streamlitTrim ⟨cols, (rows0.map (List.map naReplace)).map
              (fun r => List.zipWith (fun c w => convertCell (List.lookup c tm) w) cols r)⟩).cols,
             (streamlitTrim ⟨cols, (rows0.map (List.map naReplace)).map
              (fun r => List.zipWith (fun c w => convertCell (List.lookup c tm) w) cols r)⟩).rows.map
              (fun r => List.zipWith
                (fun c' w => if c' = "Source_File" then Value.str (pyBasename name) else w)
                (streamlitTrim ⟨cols, (rows0.map (List.map naReplace)).map
                  (fun r => List.zipWith (fun c w => convertCell (List.lookup c tm) w) cols r)⟩).cols r)⟩
          from by unfold dfAssign; rw [if_pos hSF]] at hr4 hv
      simp only at hr4 hv
      obtain ⟨r3, hr3, rfl⟩ := List.mem_map.mp hr4
      have hr3' : r3 ∈ (rows0.map (List.map naReplace)).map
          (fun r => List.zipWith (fun c w => convertCell (List.lookup c tm) w) cols r) :=
        streamlitTrim_rows_subset _ hr3
      obtain ⟨r1, hr1, rfl⟩ := List.mem_map.mp hr3'
      obtain ⟨r0, hr0, rfl⟩ := List.mem_map.mp hr1
      rw [hTcols, zipWith_zipWith_same, zipWith_zipWith_same] at hv
      obtain ⟨c, u1, hc, hu1, rfl⟩ := mem_zipWith_exists _ _ _ _ hv
      obtain ⟨u0, hu0, rfl⟩ := List.mem_map.mp hu1
      exact preOk_fmt_assign_convert tm c u0 _ hname
    · rw [show dfAssign (streamlitTrim ⟨cols, (rows0.map (List.map naReplace)).map
            (fun r => List.zipWith (fun c w => convertCell (List.lookup c tm) w) cols r)⟩)
            "Source_File" (Value.str (pyBasename name))
          = ⟨(streamlitTrim ⟨cols, (rows0.map (List.map naReplace)).map
              (fun r => List.zipWith (fun c w => convertCell (List.lookup c tm) w) cols r)⟩).cols
              ++ ["Source_File"],
             (streamlitTrim ⟨cols, (rows0.map (List.map naReplace)).map
              (fun r => List.zipWith (fun c w => convertCell (List.lookup c tm) w) cols r)⟩).rows.map
              (fun r => r ++ [Value.str (pyBasename name)])⟩
          from by unfold dfAssign; rw [if_neg hSF]] at hr4 hv
      simp only at hr4 hv
      obtain ⟨r3, hr3, rfl⟩ := List.mem_map.mp hr4
      have hr3' : r3 ∈ (rows0.map (List.map naReplace)).map
          (fun r => List.zipWith (fun c w => convertCell (List.lookup c tm) w) cols r) :=
        streamlitTrim_rows_subset _ hr3
      obtain ⟨r1, hr1, rfl⟩ := List.mem_map.mp hr3'
      obtain ⟨r0, hr0, rfl⟩ := List.mem_map.mp hr1
      rw [hTcols] at hv hSF
      have hlen : cols.length = (List.zipWith (fun c w => convertCell (List.lookup c tm) w)
          cols (r0.map naReplace)).length := by
        rw [length_zipWith_of_eq]
        rw [List.length_map]
        exact hrect0 r0 hr0
      rw [List.zipWith_append _ _ _ _ _ hlen] at hv
      rcases List.mem_append.mp hv with hv | hv
      · rw [zipWith_zipWith_same] at hv
        obtain ⟨c, u1, hc, hu1, rfl⟩ := mem_zipWith_exists _ _ _ _ hv
        obtain ⟨u0, hu0, rfl⟩ := List.mem_map.mp hu1
        have hcne : c ≠ "Source_File" := fun hceq => hSF (hceq ▸ hc)
        exact preOk_fmt_convert tm c u0 hcne
      · have : v = fmtStep tm "Source_File" (Value.str (pyBasename name)) := by
          simpa using hv
        rw [this, fmtStep_provenance]
        exact hname
  exact fun row hrow => hmain fr.cols fr.rows hrect row hrow

theorem valueOk_postConcat (v : Value) (h : preOk v = true) :
    valueOk (postConcatCell v) = true := by
  cases v with
  | null => rfl
  | num n => rfl
  | date y m d => exact absurd h (by simp [preOk])
  | str s =>
    have he : postConcatCell (Value.str s)
        = if s = "nan" ∨ s = "<NA>" ∨ s = "NaT" ∨ s = "" then Value.null else Value.str s := rfl
    rw [he]
    by_cases hc : s = "nan" ∨ s = "<NA>" ∨ s = "NaT" ∨ s = ""
    · rw [if_pos hc]; rfl
    · rw [if_neg hc]
      push_neg at hc
      simp only [preOk, Bool.and_eq_true] at h
      have h1 : s ≠ "N/A" := by simpa using h.1
      have h2 : s.data.all Char.isWhitespace = false := by
        by_cases hws : s.data.all Char.isWhitespace
        · have hemp : s = "" := by
            have h2' := h.2
            rw [hws] at h2'
            simpa using h2'
          exact absurd hemp hc.2.2.2
        · exact Bool.eq_false_iff.mpr hws
      simp [valueOk, sentinelStr, hc.1, hc.2.1, hc.2.2.1, h1, h2]

/-- C2 counterexample: in batch mode a text cell holding the literal string
`"NaT"` — one of the missing-sentinel literals the claim names — survives
every pass (`applymap` only catches blanks and `"N/A"`, and the final
standardization only replaces `"nan"`) and is persisted as a literal
string. -/
theorem persisted_sentinel_counterexample :
    batchConsolidate [("f.xlsx", ⟨["X"], [[Value.str "NaT"]]⟩)]
      = some ⟨["X", "Source_File"], [[Value.str "NaT", Value.str "f.xlsx"]]⟩ ∧
    sentinelStr "NaT" = true ∧
    valueOk (Value.str "NaT") = false := by
  refine ⟨by decide, by decide, by decide⟩

/-- C2 amended: in the interactive pipeline the invariant does hold — for
well-formed inputs (rectangular frames, file base names that are not
themselves sentinel strings, as the uploader's extension filter
guarantees), every cell of the persisted consolidated table is a typed
primitive or a true null, and no missing-sentinel literal string survives.
The batch pipeline violates the claim: see the counterexample. -/
theorem consolidated_output_no_sentinels (std : List String)
    (tm : List (String × ColType)) (files : List (String × Frame)) (out : Frame)
    (hrect : ∀ p ∈ files, ∀ r ∈ (Prod.snd p).rows, r.length = (Prod.snd p).cols.length)
    (hnames : ∀ p ∈ files, preOk (Value.str (pyBasename (Prod.fst p))) = true)
    (hout : streamlitConsolidate std tm files = some out) :
    out.rows.all (fun r => r.all valueOk) = true := by
  unfold streamlitConsolidate at hout
  cases hfs : (processLoop std tm files).1 with
  | nil => rw [hfs] at hout; exact Option.noConfusion hout
  | cons f fs =>
    rw [hfs] at hout
    have hout2 : some (Frame.mk f.cols
        (((f :: fs).map Frame.rows).flatten.map (List.map postConcatCell))) = some out := hout
    have hrows : out.rows = ((f :: fs).map Frame.rows).flatten.map (List.map postConcatCell) := by
      rw [← Option.some.inj hout2]
    rw [hrows, List.all_eq_true]
    intro r hr
    obtain ⟨r0, hr0, rfl⟩ := List.mem_map.mp hr
    rw [List.all_eq_true]
    intro v hv
    obtain ⟨w, hw, rfl⟩ := List.mem_map.mp hv
    obtain ⟨rl, hrl, hr0mem⟩ := List.mem_flatten.mp hr0
    obtain ⟨g, hg, rfl⟩ := List.mem_map.mp hrl
    have hgproc : g ∈ (processLoop std tm files).1 := by rw [hfs]; exact hg
    rw [processLoop_eq] at hgproc
    obtain ⟨p, hp, rfl⟩ := List.mem_map.mp hgproc
    have hpfiles : p ∈ files := (List.mem_filter.mp hp).1
    have hpre := clean_cells_preOk p.1 tm p.2 (hrect p hpfiles) (hnames p hpfiles) r0 hr0mem w hw
    exact valueOk_postConcat w hpre

theorem consolidated_output_no_sentinels_witness :
    (∀ p ∈ [("a.xlsx", Frame.mk ["X"] [[Value.str "hi"]])],
        ∀ r ∈ (Prod.snd p).rows, r.length = (Prod.snd p).cols.length) ∧
    (∀ p ∈ [("a.xlsx", Frame.mk ["X"] [[Value.str "hi"]])],
        preOk (Value.str (pyBasename (Prod.fst p))) = true) ∧
    streamlitConsolidate ["X"] [("X", ColType.text)] [("a.xlsx", ⟨["X"], [[Value.str "hi"]]⟩)]
      = some ⟨["X", "Source_File"], [[Value.str "hi", Value.str "a.xlsx"]]⟩ ∧
    (Frame.mk ["X", "Source_File"] [[Value.str "hi", Value.str "a.xlsx"]]).rows.all
      (fun r => r.all valueOk) = true := by
  refine ⟨by decide, by decide, by decide, ?_⟩
  exact consolidated_output_no_sentinels ["X"] [("X", ColType.text)]
    [("a.xlsx", ⟨["X"], [[Value.str "hi"]]⟩)]
    ⟨["X", "Source_File"], [[Value.str "hi", Value.str "a.xlsx"]]⟩
    (by decide) (by decide) (by decide)

theorem zipWith_concat_single {α β γ : Type} (f : α → β → γ) (as : List α) (bs : List β)
    (a : α) (b : β) (h : as.length = bs.length) :
    List.zipWith f (as ++ [a]) (bs ++ [b]) = List.zipWith f as bs ++ [f a b] := by
  rw [List.zipWith_append _ _ _ _ _ h]
  rfl

theorem assign_fmt_provenance (tm : List (String × ColType)) (bn : String) (T : Frame)
    (hSF : "Source_File" ∉ T.cols)
    (hTrows : ∀ r ∈ T.rows, r.length = T.cols.length) :
    (dfAssign T "Source_File" (Value.str bn)).cols = T.cols ++ ["Source_File"] ∧
    ((dfAssign T "Source_File" (Value.str bn)).rows.map
      (fun r => List.zipWith (fmtStep tm) (dfAssign T "Source_File" (Value.str bn)).cols r)).all
      (fun r => decide (r.getLast? = some (Value.str bn))) = true := by
  have hA : dfAssign T "Source_File" (Value.str bn)
      = ⟨T.cols ++ ["Source_File"], T.rows.map (fun r => r ++ [Value.str bn])⟩ := by
    unfold dfAssign
    rw [if_neg hSF]
  refine ⟨by rw [hA], ?_⟩
  rw [hA]
  simp only
  rw [List.all_eq_true]
  intro row hrow
  obtain ⟨r4, hr4, rfl⟩ := List.mem_map.mp hrow
  obtain ⟨r3, hr3, rfl⟩ := List.mem_map.mp hr4
  rw [zipWith_concat_single _ _ _ _ _ (hTrows r3 hr3).symm, fmtStep_provenance,
    List.getLast?_concat]
  simp

theorem batchDateFixRow_concat (cols : List String) (r : List Value) (x : Value)
    (h : cols.length = r.length) :
    batchDateFixRow (cols ++ ["Source_File"]) (r ++ [x]) = batchDateFixRow cols r ++ [x] := by
  unfold batchDateFixRow
  rw [zipWith_concat_single _ _ _ _ _ h,
    if_neg (by decide : ¬ "Source_File" ∈ batchDateCols)]

theorem batchNumFixRow_concat (cols : List String) (r : List Value) (x : Value)
    (h : cols.length = r.length) :
    batchNumFixRow (cols ++ ["Source_File"]) (r ++ [x]) = batchNumFixRow cols r ++ [x] := by
  unfold batchNumFixRow
  rw [zipWith_concat_single _ _ _ _ _ h,
    if_neg (by decide : ¬ "Source_File" ∈ batchNumericCols)]

theorem astypeObjRow_concat_str (ds : List DType) (r : List Value) (s : String)
    (h : ds.length = r.length) :
    astypeObjRow (ds ++ [DType.obj]) (r ++ [Value.str s]) = astypeObjRow ds r ++ [Value.str s] := by
  unfold astypeObjRow
  rw [zipWith_concat_single _ _ _ _ _ h, if_pos rfl]
  rfl

theorem dtypesAfterDateFix_concat (cols : List String) (ds : List DType)
    (h : cols.length = ds.length) :
    dtypesAfterDateFix (cols ++ ["Source_File"]) (ds ++ [DType.obj])
      = dtypesAfterDateFix cols ds ++ [DType.obj] := by
  unfold dtypesAfterDateFix
  rw [zipWith_concat_single _ _ _ _ _ h,
    if_neg (by decide : ¬ "Source_File" ∈ batchDateCols)]

theorem dtypesAfterNumFix_concat (cols : List String) (ds : List DType)
    (h : cols.length = ds.length) :
    dtypesAfterNumFix (cols ++ ["Source_File"]) (ds ++ [DType.obj])
      = dtypesAfterNumFix cols ds ++ [DType.obj] := by
  unfold dtypesAfterNumFix
  rw [zipWith_concat_single _ _ _ _ _ h,
    if_neg (by decide : ¬ "Source_File" ∈ batchNumericCols)]

theorem batch_shape_aux (bn : String) (cols : List String) (ds1 : List DType)
    (rows2 : List (List Value))
    (hSF : "Source_File" ∉ cols)
    (hlen1 : ds1.length = cols.length)
    (hlen2 : ∀ r ∈ rows2, r.length = cols.length) :
    (dfAssign ⟨cols, rows2⟩ "Source_File" (Value.str bn)).cols = cols ++ ["Source_File"] ∧
    (((dfAssign ⟨cols, rows2⟩ "Source_File" (Value.str bn)).rows.map
        (fun r => batchNumFixRow (dfAssign ⟨cols, rows2⟩ "Source_File" (Value.str bn)).cols
          (batchDateFixRow (dfAssign ⟨cols, rows2⟩ "Source_File" (Value.str bn)).cols r))).map
      (astypeObjRow (dtypesAfterNumFix (dfAssign ⟨cols, rows2⟩ "Source_File" (Value.str bn)).cols
        (dtypesAfterDateFix (dfAssign ⟨cols, rows2⟩ "Source_File" (Value.str bn)).cols
          (if "Source_File" ∈ cols then
            List.zipWith (fun c d => if c = "Source_File" then DType.obj else d) cols ds1
          else ds1 ++ [DType.obj]))))).all
      (fun r => decide (r.getLast? = some (Value.str bn))) = true := by
  have hA : dfAssign ⟨cols, rows2⟩ "Source_File" (Value.str bn)
      = ⟨cols ++ ["Source_File"], rows2.map (fun r => r ++ [Value.str bn])⟩ := by
    unfold dfAssign
    rw [if_neg hSF]
  refine ⟨by rw [hA], ?_⟩
  rw [hA, if_neg hSF]
  simp only
  rw [dtypesAfterDateFix_concat cols ds1 hlen1.symm]
  have hlenDF : cols.length = (dtypesAfterDateFix cols ds1).length := by
    unfold dtypesAfterDateFix
    rw [length_zipWith_of_eq _ _ _ hlen1]
  rw [dtypesAfterNumFix_concat cols _ hlenDF]
  rw [List.all_eq_true]
  intro row hrow
  obtain ⟨r5, hr5, rfl⟩ := List.mem_map.mp hrow
  obtain ⟨r3, hr3, rfl⟩ := List.mem_map.mp hr5
  obtain ⟨r2, hr2, rfl⟩ := List.mem_map.mp hr3
  rw [batchDateFixRow_concat cols r2 _ (hlen2 r2 hr2).symm]
  have hlen4 : cols.length = (batchDateFixRow cols r2).length := by
    unfold batchDateFixRow
    rw [length_zipWith_of_eq _ _ _ (hlen2 r2 hr2)]
  rw [batchNumFixRow_concat cols _ _ hlen4]
  have hlen5 : (dtypesAfterNumFix cols (dtypesAfterDateFix cols ds1)).length
      = (batchNumFixRow cols (batchDateFixRow cols r2)).length := by
    unfold dtypesAfterNumFix batchNumFixRow
    rw [length_zipWith_of_eq _ _ _ hlenDF.symm, length_zipWith_of_eq _ _ _ hlen4.symm]
  rw [astypeObjRow_concat_str _ _ _ hlen5, List.getLast?_concat]
  simp

/-- C10 counterexample: when the input frame already has a column named
`Source_File`, the pandas assignment overwrites that column in place
instead of appending a new one — here the provenance value lands in the
first column, before the data column `B`, and the last column keeps its
data value `"y"` instead of the base file name. -/
theorem provenance_append_counterexample :
    clean_and_prepare_df "f.xlsx" [("Source_File", ColType.text), ("B", ColType.text)]
        ⟨["Source_File", "B"], [[Value.str "x", Value.str "y"]]⟩
      = ⟨["Source_File", "B"], [[Value.str "f.xlsx", Value.str "y"]]⟩ ∧
    (clean_and_prepare_df "f.xlsx" [("Source_File", ColType.text), ("B", ColType.text)]
        ⟨["Source_File", "B"], [[Value.str "x", Value.str "y"]]⟩).cols
      ≠ ["Source_File", "B"] ++ ["Source_File"] ∧
    (clean_and_prepare_df "f.xlsx" [("Source_File", ColType.text), ("B", ColType.text)]
        ⟨["Source_File", "B"], [[Value.str "x", Value.str "y"]]⟩).rows.all
      (fun r => decide (r.getLast? = some (Value.str (pyBasename "f.xlsx")))) = false := by
  refine ⟨by decide, by decide, by decide⟩

/-- C10 amended: for rectangular frames none of whose data columns is
already named `Source_File`, both cleaning routines append the provenance
column, named `Source_File`, after all data columns, and in every returned
row its value is the base file name of the source (directory stripped). -/
theorem provenance_column_appended (name : String) (tm : List (String × ColType)) (fr : Frame)
    (hSF : "Source_File" ∉ fr.cols)
    (hrect : ∀ r ∈ fr.rows, r.length = fr.cols.length) :
    ((clean_and_prepare_df name tm fr).cols = fr.cols ++ ["Source_File"] ∧
     (clean_and_prepare_df name tm fr).rows.all
       (fun r => decide (r.getLast? = some (Value.str (pyBasename name)))) = true) ∧
    ((process_file name fr).cols = fr.cols ++ ["Source_File"] ∧
     (process_file name fr).rows.all
       (fun r => decide (r.getLast? = some (Value.str (pyBasename name)))) = true) := by
  constructor
  · have hSFT : "Source_File" ∉ (streamlitTrim ⟨fr.cols, (fr.rows.map (List.map naReplace)).map
        (fun r => List.zipWith (fun c w => convertCell (List.lookup c tm) w) fr.cols r)⟩).cols := by
      rw [streamlitTrim_cols]
      exact hSF
    have hTrows : ∀ r ∈ (streamlitTrim ⟨fr.cols, (fr.rows.map (List.map naReplace)).map
        (fun r => List.zipWith (fun c w => convertCell (List.lookup c tm) w) fr.cols r)⟩).rows,
        r.length = (streamlitTrim ⟨fr.cols, (fr.rows.map (List.map naReplace)).map
          (fun r => List.zipWith (fun c w => convertCell (List.lookup c tm) w) fr.cols r)⟩).cols.length := by
      intro r hr
      have hr' := streamlitTrim_rows_subset _ hr
      obtain ⟨r1, hr1, rfl⟩ := List.mem_map.mp hr'
      obtain ⟨r0, hr0, rfl⟩ := List.mem_map.mp hr1
      rw [streamlitTrim_cols]
      rw [length_zipWith_of_eq]
      rw [List.length_map]
      exact hrect r0 hr0
    have h := assign_fmt_provenance tm (pyBasename name) _ hSFT hTrows
    constructor
    · exact h.1.trans (by rw [streamlitTrim_cols])
    · exact h.2
  · have hlen1 : (inferDtypes fr.cols (fr.rows.map (List.map naReplace))).length
        = fr.cols.length := inferDtypes_length _ _
    have hlen2 : ∀ r ∈ batchTrimRows (inferDtypes fr.cols (fr.rows.map (List.map naReplace)))
        (fr.rows.map (List.map naReplace)), r.length = fr.cols.length := by
      intro r hr
      have hr' := batchTrimRows_subset _ _ hr
      obtain ⟨r0, hr0, rfl⟩ := List.mem_map.mp hr'
      rw [List.length_map]
      exact hrect r0 hr0
    have h := batch_shape_aux (pyBasename name) fr.cols
      (inferDtypes fr.cols (fr.rows.map (List.map naReplace)))
      (batchTrimRows (inferDtypes fr.cols (fr.rows.map (List.map naReplace)))
        (fr.rows.map (List.map naReplace)))
      hSF hlen1 hlen2
    exact ⟨h.1, h.2⟩

theorem provenance_column_appended_witness :
    ("Source_File" ∉ (Frame.mk ["B"] [[Value.str "hi"]]).cols ∧
      ∀ r ∈ (Frame.mk ["B"] [[Value.str "hi"]]).rows,
        r.length = (Frame.mk ["B"] [[Value.str "hi"]]).cols.length) ∧
    (clean_and_prepare_df "d/f.xlsx" [("B", ColType.text)] ⟨["B"], [[Value.str "hi"]]⟩).cols
      = ["B"] ++ ["Source_File"] ∧
    (clean_and_prepare_df "d/f.xlsx" [("B", ColType.text)] ⟨["B"], [[Value.str "hi"]]⟩).rows.all
      (fun r => decide (r.getLast? = some (Value.str (pyBasename "d/f.xlsx")))) = true ∧
    (process_file "d/f.xlsx" ⟨["B"], [[Value.str "hi"]]⟩).cols = ["B"] ++ ["Source_File"] ∧
    (process_file "d/f.xlsx" ⟨["B"], [[Value.str "hi"]]⟩).rows.all
      (fun r => decide (r.getLast? = some (Value.str (pyBasename "d/f.xlsx")))) = true := by
  have h := provenance_column_appended "d/f.xlsx" [("B", ColType.text)]
    ⟨["B"], [[Value.str "hi"]]⟩ (by decide) (by decide)
  exact ⟨⟨by decide, by decide⟩, h.1.1, h.1.2, h.2.1, h.2.2⟩
